import Mathlib

/-!
Verification development for the `Gao2018DeepWordBug` attack recipe
(`textattack/attack_recipes/gao_2018_deepwordbug.py`) and the greedy
word-importance-ranked adversarial search it configures.

The recipe file itself is embedded directly from the source.  The
collaborating components (the `GreedyWordSwapWIR` search method, the
`LevenshteinEditDistance` constraint, the character-level word-swap
transformations, the oracle interface) are not part of the provided
source tree; they are modelled from the specification, as indicated by
the doc comment of each such definition.
-/

/-- Modelled from the spec: the `Text` data model (spec section 3) — the
concrete Text class is missing from the source tree.  A `Text` is an
ordered sequence of word tokens together with the means to reconstruct
the full string; it is immutable (every transformation yields a new
`Text`). -/
structure Text where
  words : List (List Char)
deriving DecidableEq, Repr

/-- Modelled from the spec: reconstruction of the full character string
of a `Text` (spec section 3) — words joined by single spaces, so that
the character-level edit distance of spec section 4.3 can be computed
over "the full reconstructed string". -/
def Text.reconstruct (t : Text) : List Char :=
  (t.words.intersperse [' ']).flatten

/-- The four character-mutation word-swap operators imported by the
recipe from `textattack.transformations`. -/
inductive WordSwapOp where
  | neighboringCharacterSwap
  | randomCharacterSubstitution
  | randomCharacterDeletion
  | randomCharacterInsertion
deriving DecidableEq, Repr

/-- A transformation as configured by the recipe: either a single
word-swap operator, or a `CompositeTransformation` of several
operators. -/
inductive Transformation where
  | single (op : WordSwapOp)
  | composite (ops : List WordSwapOp)
deriving DecidableEq, Repr

/-- The flat list of operators of a configured transformation. -/
def Transformation.ops : Transformation → List WordSwapOp
  | .single op => [op]
  | .composite os => os

/-- The constraint objects the recipe can build: here only
`textattack.constraints.overlap.LevenshteinEditDistance`, carrying its
maximum edit-distance budget. -/
inductive Constraint where
  | levenshteinEditDistance (maxEditDistance : Nat)
deriving DecidableEq, Repr

/-- Modelled from the spec: the `GreedyWordSwapWIR` attack object (its
class is missing from the source tree; its constructor arguments are
taken from the recipe's call site): a target model, a transformation, a
list of constraints, and an optional search-depth limit. -/
structure GreedyWordSwapWIR (Model : Type) where
  model : Model
  transformation : Transformation
  constraints : List Constraint
  max_depth : Option Nat

/-- The `Gao2018DeepWordBug` recipe, embedded from
`textattack/attack_recipes/gao_2018_deepwordbug.py`.  With
`use_all_transformations` (default `true`) the transformation is the
composite of the four character operators; otherwise it is the single
random-character-substitution operator.  A local list holding
`LevenshteinEditDistance(30)` is built, but the attack is constructed
with `constraints=[]` and `max_depth=None`. -/
def Gao2018DeepWordBug {M : Type} (model : M)
    (use_all_transformations : optParam Bool true) : GreedyWordSwapWIR M :=
  let transformation : Transformation :=
    if use_all_transformations then
      Transformation.composite [
        WordSwapOp.neighboringCharacterSwap,
        WordSwapOp.randomCharacterSubstitution,
        WordSwapOp.randomCharacterDeletion,
        WordSwapOp.randomCharacterInsertion]
    else
      Transformation.single WordSwapOp.randomCharacterSubstitution
  let constraints : List Constraint := [Constraint.levenshteinEditDistance 30]
  let attack : GreedyWordSwapWIR M :=
    { model := model, transformation := transformation,
      constraints := [], max_depth := none }
  attack

/-- The constraint list the recipe builds (source lines 43–45) and binds
to its local variable `constraints`; the constructed attack never
receives it. -/
def Gao2018DeepWordBugConstraints : List Constraint :=
  [Constraint.levenshteinEditDistance 30]

/-- One row update of the Levenshtein dynamic program: given the
remaining characters `bs` of the second string, the tail `prev` of the
previous row starting at the current column, and the value `left` just
computed in the new row, produce the rest of the new row. -/
def levNextRow (a : Char) : List Char → List Nat → Nat → List Nat
  | b :: bs, pj :: rest, left =>
      let d := min (pj + (if a = b then 0 else 1))
                   (min (rest.headD 0 + 1) (left + 1))
      d :: levNextRow a bs rest d
  | _, _, _ => []

/-- Modelled from the spec: the edit-distance implementation of the
`LevenshteinEditDistance` constraint (spec section 6) is missing from
the source tree; it is "a textbook Levenshtein computation over the
character sequence of the two reconstructed strings", here as the
standard row-by-row dynamic program (O(len_a × len_b) time, one row of
space). -/
def levDistance (as bs : List Char) : Nat :=
  (as.foldl
    (fun row a =>
      let left := row.headD 0 + 1
      left :: levNextRow a bs row left)
    (List.range (bs.length + 1))).getLast?.getD 0

/-- Modelled from the spec: the `ConstraintFilter` contract
`permits(original_text, candidate) -> boolean` (spec section 4.3) is
missing from the source tree; for the edit-distance constraint it
accepts a candidate iff the character-level edit distance between the
full reconstructed strings of the original and the candidate is at most
the configured budget. -/
def Constraint.permits : Constraint → Text → Text → Bool
  | .levenshteinEditDistance budget, original, candidate =>
      decide (levDistance original.reconstruct candidate.reconstruct ≤ budget)

/-- Modelled from the spec: the random alphabet draw of the randomized
character operators (spec section 6) is missing from the source tree;
randomness is an explicit seed, mapped to a lowercase letter. -/
def randomLetter (seed : Nat) : Char :=
  Char.ofNat (97 + seed % 26)

/-- Insertion of a character at position `i` of a word. -/
def insertAt (i : Nat) (a : Char) (w : List Char) : List Char :=
  w.take i ++ a :: w.drop i

/-- Modelled from the spec: the concrete character-mutation routines
(spec sections 2 and 6: swap of two adjacent letters, substitution of a
letter by a random letter, deletion of a letter, insertion of a random
letter) are missing from the source tree.  Each operator maps a word to
the list of mutated words, one per applicable character position; an
operator whose minimum word length is not met contributes no candidates
(spec section 4.2). -/
def applyOp (seed : Nat) : WordSwapOp → List Char → List (List Char)
  | .neighboringCharacterSwap, w =>
      (List.range (w.length - 1)).map fun i =>
        (w.set i (w.getD (i + 1) 'a')).set (i + 1) (w.getD i 'a')
  | .randomCharacterSubstitution, w =>
      (List.range w.length).map fun i => w.set i (randomLetter (seed + i))
  | .randomCharacterDeletion, w =>
      (List.range w.length).map fun i => w.eraseIdx i
  | .randomCharacterInsertion, w =>
      (List.range (w.length + 1)).map fun i =>
        insertAt i (randomLetter (seed + i)) w

/-- Modelled from the spec: the perturbation record of spec section 3 —
(word position, original word, replacement word, operator used), one per
committed change. -/
structure PerturbationRecord where
  position : Nat
  originalWord : List Char
  replacementWord : List Char
  op : WordSwapOp
deriving DecidableEq, Repr

/-- Modelled from the spec: a candidate (spec section 3) — a speculative
(Text, originating perturbation record) pair, never committed until
scored and selected. -/
structure Candidate where
  text : Text
  record : PerturbationRecord
deriving DecidableEq, Repr

/-- All candidates produced at one word position by the operators of a
transformation, before no-op exclusion and deduplication: every
operator's output for the word at that position, each tagged with the
operator that produced it (spec section 4.2). -/
def rawCandidates (t : Transformation) (seed : Nat) (x : Text) (i : Nat) :
    List Candidate :=
  let w := x.words.getD i []
  (t.ops.map fun op =>
    (applyOp seed op w).map fun w' =>
      { text := { words := x.words.set i w' },
        record := { position := i, originalWord := w,
                    replacementWord := w', op := op } }).flatten

/-- Textual deduplication worker: drops every candidate whose text was
already seen, threading the list of seen texts. -/
def dedupByTextAux (seen : List Text) : List Candidate → List Candidate
  | [] => []
  | c :: cs =>
      if c.text ∈ seen then dedupByTextAux seen cs
      else c :: dedupByTextAux (c.text :: seen) cs

/-- Textual deduplication of a candidate list: keeps the first candidate
bearing each text (spec section 4.2: no two candidates may be textually
identical). -/
def dedupByText (l : List Candidate) : List Candidate :=
  dedupByTextAux [] l

/-- Modelled from the spec: the `TransformationEngine` contract
`generate(text, position) -> set of Candidate` (spec section 4.2) is
missing from the source tree; the union of every operator's output is
deduplicated and the identity transformation (no-op) is excluded. -/
def generate (t : Transformation) (seed : Nat) (x : Text) (i : Nat) :
    List Candidate :=
  dedupByText ((rawCandidates t seed x i).filter fun c => decide (c.text ≠ x))

/-- Modelled from the spec: the oracle's answer (spec section 6:
`predict(text) -> label and confidence per label`) — the concrete model
wrapper is missing from the source tree.  Confidences are integers, one
per label (a discrete stand-in for the real-valued scores: the search
only ever compares confidences, never does arithmetic beyond the
ranker's subtraction). -/
structure Prediction where
  label : Nat
  confidence : List Int
deriving DecidableEq, Repr

/-- The confidence the oracle assigns to a given label (0 when the label
is out of range). -/
def Prediction.confOf (p : Prediction) (l : Nat) : Int :=
  p.confidence.getD l 0

/-- Modelled from the spec: the black-box oracle (spec sections 2 and
6) — a pure function from a text to a prediction. -/
def Oracle : Type := Text → Prediction

/-- Modelled from the spec: the probe text used by the importance ranker
(spec section 4.1) — the text with the word at the given position
deleted. -/
def wordDeletedProbe (x : Text) (i : Nat) : Text :=
  { words := x.words.eraseIdx i }

/-- Stable insertion into a list sorted by descending score: the new
pair goes after every pair of greater-or-equal score, so equal scores
keep their original (ascending-position) order. -/
def insertRanked (a : Nat × Int) : List (Nat × Int) → List (Nat × Int)
  | [] => [a]
  | b :: bs => if b.2 < a.2 then a :: b :: bs else b :: insertRanked a bs

/-- Modelled from the spec: the `ImportanceRanker` contract
`rank(text, oracle) -> ordered sequence of word positions` (spec
section 4.1) is missing from the source tree.  For each word position
the oracle's confidence drop in the original predicted label when that
word is deleted is the importance score; positions are sorted descending
by score, ties broken by ascending original index. -/
def rank (oracle : Oracle) (x : Text) : List Nat :=
  let p0 := oracle x
  let base := p0.confOf p0.label
  let scored := (List.range x.words.length).map fun i =>
    (i, base - (oracle (wordDeletedProbe x i)).confOf p0.label)
  (scored.foldl (fun acc a => insertRanked a acc) []).map Prod.fst

/-- The first scored candidate attaining the minimum confidence in the
original label (ties keep the earliest candidate), or `none` on an empty
list — the "best" candidate of spec section 4.4, maximal degradation of
the original label's confidence. -/
def pickBest (origLabel : Nat) :
    List (Candidate × Prediction) → Option (Candidate × Prediction)
  | [] => none
  | cp :: rest =>
      match pickBest origLabel rest with
      | none => some cp
      | some best =>
          if cp.2.confOf origLabel ≤ best.2.confOf origLabel then some cp
          else some best

/-- Modelled from the spec: the terminal `AttackResult` (spec
section 3) — `Success` (decision flipped: final text and perturbation
trail) or `Failure` (words exhausted: best text found and trail). -/
inductive AttackResult where
  | success (finalText : Text) (trail : List PerturbationRecord)
  | failure (bestText : Text) (trail : List PerturbationRecord)
deriving DecidableEq, Repr

/-- The final text carried by an attack result. -/
def AttackResult.text : AttackResult → Text
  | .success t _ => t
  | .failure t _ => t

/-- The scored survivors of one word position: the candidates that every
constraint permits relative to the original text, each paired with the
oracle's prediction for its text (one oracle query per survivor). -/
def stepScored (oracle : Oracle) (cs : List Constraint) (original : Text)
    (cands : List Candidate) : List (Candidate × Prediction) :=
  (cands.filter fun c => cs.all fun con => con.permits original c.text).map
    fun c => (c, oracle c.text)

/-- Modelled from the spec: the `GreedySearcher` loop (spec
section 4.4) — the body of `GreedyWordSwapWIR`, which is missing from
the source tree.  The loop walks the ranked word positions; at each one
it generates candidates for the current text, filters them against the
constraints (always relative to the immutable original text), scores the
survivors with one oracle query each, and either halts with `Success` on
the best decision-flipping candidate, commits the best
confidence-degrading candidate, or carries the current text forward.
Besides the result it returns the number of scoring oracle queries
issued and the maximum number of candidates generated at any single word
position. -/
def searchLoop (oracle : Oracle) (t : Transformation) (cs : List Constraint)
    (seed : Nat) (original : Text) (origLabel : Nat) :
    List Nat → Text → List PerturbationRecord → Int → Nat → Nat →
      AttackResult × Nat × Nat
  | [], current, trail, _curConf, q, mx => (.failure current trail, q, mx)
  | i :: rest, current, trail, curConf, q, mx =>
      let cands := generate t seed current i
      let scored := stepScored oracle cs original cands
      let q' := q + scored.length
      let mx' := max mx cands.length
      match pickBest origLabel
          (scored.filter fun cp => decide (cp.2.label ≠ origLabel)) with
      | some best => (.success best.1.text (trail ++ [best.1.record]), q', mx')
      | none =>
          match pickBest origLabel scored with
          | some best =>
              if best.2.confOf origLabel < curConf then
                searchLoop oracle t cs seed original origLabel rest best.1.text
                  (trail ++ [best.1.record]) (best.2.confOf origLabel) q' mx'
              else
                searchLoop oracle t cs seed original origLabel rest current
                  trail curConf q' mx'
          | none =>
              searchLoop oracle t cs seed original origLabel rest current
                trail curConf q' mx'

/-- Modelled from the spec: one full attack run of a `GreedyWordSwapWIR`
whose model is an oracle (spec sections 2 and 4.4): query the original
prediction, rank the word positions once, then run the greedy search
loop from the original text with an empty trail.  Returns the result,
the number of scoring oracle queries of the search loop, and the maximum
candidate-set size over the word positions. -/
def GreedyWordSwapWIR.attack (A : GreedyWordSwapWIR Oracle) (seed : Nat)
    (x : Text) : AttackResult × Nat × Nat :=
  let p0 := A.model x
  searchLoop A.model A.transformation A.constraints seed x p0.label
    (rank A.model x) x [] (p0.confOf p0.label) 0 0

/-- The number of occurrences of the letter z in a character list; the
demonstration oracle below reads only this statistic. -/
def zCount (cs : List Char) : Nat :=
  cs.countP fun c => decide (c = 'z')

/-- A concrete deterministic oracle: label 1 (attack goal reached) as
soon as the reconstructed string holds at least 31 letters z, label 0
otherwise; the confidence in label 0 decreases by one with every z. -/
def bugOracle : Oracle := fun t =>
  let z := zCount t.reconstruct
  { label := if 31 ≤ z then 1 else 0,
    confidence := [(31 : Int) - (z : Int), (z : Int)] }

/-- A concrete input text of 31 one-letter words a. -/
def bugText : Text :=
  { words := List.replicate 31 ['a'] }

/-- The text the demonstration run ends at: all 31 words substituted by
the letter z. -/
def bugFinalText : Text :=
  { words := List.replicate 31 ['z'] }

/-- The perturbation trail of the demonstration run: one
random-character substitution a→z at every position 0..30. -/
def bugTrail : List PerturbationRecord :=
  (List.range 31).map fun i =>
    { position := i, originalWord := ['a'], replacementWord := ['z'],
      op := WordSwapOp.randomCharacterSubstitution }

/-! ## Lemmas about deduplication and candidate generation -/

theorem mem_of_mem_dedupByTextAux {d : Candidate} :
    ∀ {seen : List Text} {l : List Candidate},
      d ∈ dedupByTextAux seen l → d ∈ l := by
  intro seen l
  induction l generalizing seen with
  | nil => intro h; simp [dedupByTextAux] at h
  | cons c cs ih =>
      intro h
      rw [dedupByTextAux] at h
      by_cases hc : c.text ∈ seen
      · rw [if_pos hc] at h
        exact List.mem_cons_of_mem c (ih h)
      · rw [if_neg hc] at h
        rcases List.mem_cons.1 h with h | h
        · exact h ▸ List.mem_cons_self c cs
        · exact List.mem_cons_of_mem c (ih h)

theorem text_not_seen_of_mem_dedupByTextAux {d : Candidate} :
    ∀ {seen : List Text} {l : List Candidate},
      d ∈ dedupByTextAux seen l → d.text ∉ seen := by
  intro seen l
  induction l generalizing seen with
  | nil => intro h; simp [dedupByTextAux] at h
  | cons c cs ih =>
      intro h
      rw [dedupByTextAux] at h
      by_cases hc : c.text ∈ seen
      · rw [if_pos hc] at h
        exact ih h
      · rw [if_neg hc] at h
        rcases List.mem_cons.1 h with h | h
        · exact h ▸ hc
        · intro hmem
          exact ih h (List.mem_cons_of_mem _ hmem)

theorem nodup_texts_dedupByTextAux :
    ∀ (l : List Candidate) (seen : List Text),
      ((dedupByTextAux seen l).map fun c => c.text).Nodup := by
  intro l
  induction l with
  | nil => intro seen; simp [dedupByTextAux]
  | cons c cs ih =>
      intro seen
      rw [dedupByTextAux]
      by_cases hc : c.text ∈ seen
      · rw [if_pos hc]; exact ih seen
      · rw [if_neg hc]
        simp only [List.map_cons, List.nodup_cons]
        refine ⟨?_, ih (c.text :: seen)⟩
        intro hmem
        rcases List.mem_map.1 hmem with ⟨d, hd, hdt⟩
        exact text_not_seen_of_mem_dedupByTextAux hd
          (hdt ▸ List.mem_cons_self c.text seen)

theorem generate_not_noop {t : Transformation} {seed : Nat} {x : Text}
    {i : Nat} {c : Candidate} (h : c ∈ generate t seed x i) : c.text ≠ x := by
  have h1 := mem_of_mem_dedupByTextAux h
  have h2 := (List.mem_filter.1 h1).2
  exact of_decide_eq_true h2

theorem generate_texts_nodup (t : Transformation) (seed : Nat) (x : Text)
    (i : Nat) : ((generate t seed x i).map fun c => c.text).Nodup :=
  nodup_texts_dedupByTextAux _ _

/-! ## Lemmas about ranking and the greedy search loop -/

theorem insertRanked_length (a : Nat × Int) :
    ∀ (l : List (Nat × Int)), (insertRanked a l).length = l.length + 1 := by
  intro l
  induction l with
  | nil => rfl
  | cons b bs ih =>
      rw [insertRanked]
      by_cases h : b.2 < a.2
      · rw [if_pos h]; rfl
      · rw [if_neg h]
        simp only [List.length_cons, ih]

theorem foldl_insertRanked_length :
    ∀ (l acc : List (Nat × Int)),
      (l.foldl (fun acc a => insertRanked a acc) acc).length =
        acc.length + l.length := by
  intro l
  induction l with
  | nil => intro acc; rfl
  | cons a as ih =>
      intro acc
      simp only [List.foldl_cons, ih, insertRanked_length, List.length_cons]
      omega

theorem rank_length (oracle : Oracle) (x : Text) :
    (rank oracle x).length = x.words.length := by
  unfold rank
  simp [foldl_insertRanked_length]

theorem pickBest_mem {origLabel : Nat} {cp : Candidate × Prediction} :
    ∀ {l : List (Candidate × Prediction)},
      pickBest origLabel l = some cp → cp ∈ l := by
  intro l
  induction l with
  | nil => intro h; simp [pickBest] at h
  | cons d ds ih =>
      intro h
      rw [pickBest] at h
      rcases hrec : pickBest origLabel ds with _ | best
      · rw [hrec] at h
        exact List.mem_cons.2 (Or.inl (Option.some.inj h).symm)
      · rw [hrec] at h
        dsimp only at h
        by_cases hle : d.2.confOf origLabel ≤ best.2.confOf origLabel
        · rw [if_pos hle] at h
          exact List.mem_cons.2 (Or.inl (Option.some.inj h).symm)
        · rw [if_neg hle] at h
          have hbc : best = cp := Option.some.inj h
          exact List.mem_cons.2 (Or.inr (ih (hbc ▸ hrec)))

theorem stepScored_length_le (oracle : Oracle) (cs : List Constraint)
    (original : Text) (cands : List Candidate) :
    (stepScored oracle cs original cands).length ≤ cands.length := by
  unfold stepScored
  rw [List.length_map]
  exact List.length_filter_le _ _

theorem stepScored_permits {oracle : Oracle} {cs : List Constraint}
    {original : Text} {cands : List Candidate} {cp : Candidate × Prediction}
    (h : cp ∈ stepScored oracle cs original cands) :
    ∀ con ∈ cs, con.permits original cp.1.text = true := by
  intro con hcon
  rcases List.mem_map.1 h with ⟨c, hc, rfl⟩
  exact List.all_eq_true.1 (List.mem_filter.1 hc).2 con hcon

theorem searchLoop_mx_le (oracle : Oracle) (t : Transformation)
    (cs : List Constraint) (seed : Nat) (original : Text) (origLabel : Nat) :
    ∀ (positions : List Nat) (current : Text)
      (trail : List PerturbationRecord) (curConf : Int) (q mx : Nat),
      mx ≤ (searchLoop oracle t cs seed original origLabel positions current
        trail curConf q mx).2.2 := by
  intro positions
  induction positions with
  | nil =>
      intro current trail curConf q mx
      rw [searchLoop]
  | cons i rest ih =>
      intro current trail curConf q mx
      rw [searchLoop]
      split
      · exact Nat.le_max_left _ _
      · split
        · split
          · exact Nat.le_trans (Nat.le_max_left _ _) (ih _ _ _ _ _)
          · exact Nat.le_trans (Nat.le_max_left _ _) (ih _ _ _ _ _)
        · exact Nat.le_trans (Nat.le_max_left _ _) (ih _ _ _ _ _)

theorem queries_step_arith {a q s n X : Nat} (h1 : a ≤ q + s + n * X)
    (h2 : s ≤ X) : a ≤ q + (n + 1) * X := by
  have h3 : q + s + n * X ≤ q + X + n * X :=
    Nat.add_le_add_right (Nat.add_le_add_left h2 q) _
  have h4 : q + X + n * X = q + (n + 1) * X := by ring
  exact h4 ▸ Nat.le_trans h1 h3

theorem searchLoop_queries_le (oracle : Oracle) (t : Transformation)
    (cs : List Constraint) (seed : Nat) (original : Text) (origLabel : Nat) :
    ∀ (positions : List Nat) (current : Text)
      (trail : List PerturbationRecord) (curConf : Int) (q mx : Nat),
      (searchLoop oracle t cs seed original origLabel positions current
        trail curConf q mx).2.1 ≤
        q + positions.length *
          (searchLoop oracle t cs seed original origLabel positions current
            trail curConf q mx).2.2 := by
  intro positions
  induction positions with
  | nil =>
      intro current trail curConf q mx
      rw [searchLoop]
      simp
  | cons i rest ih =>
      intro current trail curConf q mx
      rw [searchLoop]
      simp only [List.length_cons]
      split
      · dsimp only
        have h1 : (stepScored oracle cs original
            (generate t seed current i)).length ≤
            max mx (generate t seed current i).length :=
          Nat.le_trans (stepScored_length_le _ _ _ _) (Nat.le_max_right _ _)
        have h2 : max mx (generate t seed current i).length ≤
            (rest.length + 1) * max mx (generate t seed current i).length :=
          Nat.le_mul_of_pos_left _ (Nat.succ_pos _)
        exact Nat.add_le_add_left (Nat.le_trans h1 h2) q
      · split
        · split
          · exact queries_step_arith (ih _ _ _ _ _)
              (Nat.le_trans
                (Nat.le_trans (stepScored_length_le _ _ _ _)
                  (Nat.le_max_right _ _))
                (searchLoop_mx_le oracle t cs seed original origLabel rest
                  _ _ _ _ _))
          · exact queries_step_arith (ih _ _ _ _ _)
              (Nat.le_trans
                (Nat.le_trans (stepScored_length_le _ _ _ _)
                  (Nat.le_max_right _ _))
                (searchLoop_mx_le oracle t cs seed original origLabel rest
                  _ _ _ _ _))
        · exact queries_step_arith (ih _ _ _ _ _)
            (Nat.le_trans
              (Nat.le_trans (stepScored_length_le _ _ _ _)
                (Nat.le_max_right _ _))
              (searchLoop_mx_le oracle t cs seed original origLabel rest
                _ _ _ _ _))

theorem attack_queries_le (A : GreedyWordSwapWIR Oracle) (seed : Nat)
    (x : Text) :
    (A.attack seed x).2.1 ≤ x.words.length * (A.attack seed x).2.2 := by
  unfold GreedyWordSwapWIR.attack
  have h := searchLoop_queries_le A.model A.transformation A.constraints seed
    x (A.model x).label (rank A.model x) x [] ((A.model x).confOf (A.model x).label) 0 0
  rw [rank_length] at h
  simpa using h

theorem searchLoop_final_text_permits (oracle : Oracle) (t : Transformation)
    (cs : List Constraint) (seed : Nat) (original : Text) (origLabel : Nat) :
    ∀ (positions : List Nat) (current : Text)
      (trail : List PerturbationRecord) (curConf : Int) (q mx : Nat),
      (∀ con ∈ cs, con.permits original
        ((searchLoop oracle t cs seed original origLabel positions current
          trail curConf q mx).1.text) = true) ∨
      (searchLoop oracle t cs seed original origLabel positions current
        trail curConf q mx).1.text = current := by
  intro positions
  induction positions with
  | nil =>
      intro current trail curConf q mx
      rw [searchLoop]
      exact Or.inr rfl
  | cons i rest ih =>
      intro current trail curConf q mx
      rw [searchLoop]
      split
      · rename_i best hpick
        refine Or.inl fun con hcon => ?_
        have hmem : best ∈ stepScored oracle cs original
            (generate t seed current i) :=
          (List.mem_filter.1 (pickBest_mem hpick)).1
        exact stepScored_permits hmem con hcon
      · rename_i hflips
        split
        · rename_i best hpick
          split
          · rcases ih best.1.text (trail ++ [best.1.record])
                (best.2.confOf origLabel) (q + (stepScored oracle cs original
                  (generate t seed current i)).length)
                (max mx (generate t seed current i).length) with h | h
            · exact Or.inl h
            · refine Or.inl fun con hcon => ?_
              rw [h]
              exact stepScored_permits (pickBest_mem hpick) con hcon
          · exact ih _ _ _ _ _
        · exact ih _ _ _ _ _

theorem attack_final_text_permits (A : GreedyWordSwapWIR Oracle) (seed : Nat)
    (x : Text) :
    (∀ con ∈ A.constraints,
      con.permits x ((A.attack seed x).1.text) = true) ∨
    (A.attack seed x).1.text = x := by
  unfold GreedyWordSwapWIR.attack
  exact searchLoop_final_text_permits A.model A.transformation A.constraints
    seed x (A.model x).label (rank A.model x) x [] _ 0 0

theorem levenshteinEditDistance_permits_iff (n : Nat) (o c : Text) :
    (Constraint.levenshteinEditDistance n).permits o c = true ↔
      levDistance o.reconstruct c.reconstruct ≤ n := by
  simp [Constraint.permits]

/-! ## Claim theorems -/

/-- Claim C2: the recipe passes an empty constraint list to the
`GreedyWordSwapWIR` construction, while the `LevenshteinEditDistance(30)`
list it builds is never attached: the returned attack is constructed
with no distance constraint at all. -/
theorem gao_constraint_never_attached {M : Type} (m : M) (b : Bool) :
    (Gao2018DeepWordBug m b).constraints = [] ∧
    Gao2018DeepWordBugConstraints = [Constraint.levenshteinEditDistance 30] ∧
    ∀ c ∈ Gao2018DeepWordBugConstraints,
      c ∉ (Gao2018DeepWordBug m b).constraints := by
  refine ⟨rfl, rfl, ?_⟩
  intro c _hc h
  exact List.not_mem_nil c h

/-- Claim C3: with `use_all_transformations` the transformation is the
composite of exactly the four character-mutation operators, without it
the single random-character-substitution operator, and the model
argument (the only other argument of the recipe) has no influence on the
configured transformation. -/
theorem gao_transformation_selection {M M' : Type} (m : M) (m' : M')
    (b : Bool) :
    (Gao2018DeepWordBug m true).transformation =
      Transformation.composite [
        WordSwapOp.neighboringCharacterSwap,
        WordSwapOp.randomCharacterSubstitution,
        WordSwapOp.randomCharacterDeletion,
        WordSwapOp.randomCharacterInsertion] ∧
    (Gao2018DeepWordBug m false).transformation =
      Transformation.single WordSwapOp.randomCharacterSubstitution ∧
    (Gao2018DeepWordBug m b).transformation =
      (Gao2018DeepWordBug m' b).transformation := by
  refine ⟨rfl, rfl, ?_⟩
  cases b <;> rfl

/-- Claim C4: the distance constraint the recipe defines is Levenshtein
edit distance with budget exactly 30; it accepts a candidate iff the
character-level edit distance between the reconstructed strings of the
original and the candidate is at most 30; and enforcement is cumulative
against the immutable original: a run of the attack with this constraint
attached ends at a text within distance 30 of the original input (or at
the unmodified input itself). -/
theorem gao_levenshtein_constraint_semantics (oracle : Oracle) (b : Bool)
    (seed : Nat) (x : Text) :
    Gao2018DeepWordBugConstraints = [Constraint.levenshteinEditDistance 30] ∧
    (∀ o c : Text,
      (Constraint.levenshteinEditDistance 30).permits o c = true ↔
        levDistance o.reconstruct c.reconstruct ≤ 30) ∧
    (levDistance x.reconstruct
        (({ Gao2018DeepWordBug oracle b with
            constraints := Gao2018DeepWordBugConstraints }).attack seed
              x).1.text.reconstruct ≤ 30 ∨
      (({ Gao2018DeepWordBug oracle b with
          constraints := Gao2018DeepWordBugConstraints }).attack seed
            x).1.text = x) := by
  refine ⟨rfl, fun o c => levenshteinEditDistance_permits_iff 30 o c, ?_⟩
  rcases attack_final_text_permits
      { Gao2018DeepWordBug oracle b with
        constraints := Gao2018DeepWordBugConstraints } seed x with h | h
  · left
    exact (levenshteinEditDistance_permits_iff 30 x _).1
      (h (Constraint.levenshteinEditDistance 30) (List.mem_singleton.2 rfl))
  · right
    exact h

/-- Claim C5: a full attack run of the recipe terminates (it is a total
function of its inputs) and the greedy search issues at most
(number of words) × (maximum number of candidates generated at any word
position) scoring oracle queries. -/
theorem gao_search_query_bound (oracle : Oracle) (b : Bool) (seed : Nat)
    (x : Text) :
    ((Gao2018DeepWordBug oracle b).attack seed x).2.1 ≤
      x.words.length * ((Gao2018DeepWordBug oracle b).attack seed x).2.2 :=
  attack_queries_le (Gao2018DeepWordBug oracle b) seed x

/-- Claim C6: the attack run is deterministic — with equal oracles,
equal operator seeds and equal input texts, two runs of the recipe's
attack produce identical results. -/
theorem gao_attack_deterministic (o₁ o₂ : Oracle) (b : Bool) (s₁ s₂ : Nat)
    (x₁ x₂ : Text) (ho : o₁ = o₂) (hs : s₁ = s₂) (hx : x₁ = x₂) :
    (Gao2018DeepWordBug o₁ b).attack s₁ x₁ =
      (Gao2018DeepWordBug o₂ b).attack s₂ x₂ := by
  subst ho hs hx
  rfl

/-- Witness for claim C6 at a concrete oracle, seed and text. -/
theorem gao_attack_deterministic_witness :
    (Gao2018DeepWordBug bugOracle true).attack 25 bugText =
      (Gao2018DeepWordBug bugOracle true).attack 25 bugText :=
  gao_attack_deterministic bugOracle bugOracle true 25 25 bugText bugText
    rfl rfl rfl

/-- Claim C7: for every text and word position, the candidate set
produced by the recipe's configured transformation (either value of the
flag) contains no candidate textually identical to the input text and no
two textually identical candidates. -/
theorem gao_candidates_noop_free_and_deduplicated {M : Type} (m : M)
    (b : Bool) (seed : Nat) (x : Text) (i : Nat) :
    (∀ c ∈ generate (Gao2018DeepWordBug m b).transformation seed x i,
      c.text ≠ x) ∧
    ((generate (Gao2018DeepWordBug m b).transformation seed x i).map
      fun c => c.text).Nodup :=
  ⟨fun _c hc => generate_not_noop hc, generate_texts_nodup _ _ _ _⟩

/-- Claim C8: for every model and either flag value the recipe
constructs the attack with `max_depth=None`; no argument can change
this. -/
theorem gao_max_depth_none {M : Type} (m : M) (b : Bool) :
    (Gao2018DeepWordBug m b).max_depth = none := rfl

/-- Claim C9: called with only a model argument the recipe defaults to
`use_all_transformations=True`, so the transformation is the
four-operator composite, not the substitution-only variant. -/
theorem gao_default_uses_all_transformations {M : Type} (m : M) :
    (Gao2018DeepWordBug m).transformation =
      Transformation.composite [
        WordSwapOp.neighboringCharacterSwap,
        WordSwapOp.randomCharacterSubstitution,
        WordSwapOp.randomCharacterDeletion,
        WordSwapOp.randomCharacterInsertion] ∧
    (Gao2018DeepWordBug m).transformation ≠
      Transformation.single WordSwapOp.randomCharacterSubstitution := by
  exact ⟨rfl, fun h => Transformation.noConfusion h⟩

/-- Claim C10: for every model (of any type) and either flag value the
recipe returns normally with a `GreedyWordSwapWIR` whose `model` field
is exactly the model argument, and no other field of the attack depends
on the model. -/
theorem gao_returns_attack_with_model {M M' : Type} (m : M) (m' : M')
    (b : Bool) :
    (Gao2018DeepWordBug m b).model = m ∧
    (Gao2018DeepWordBug m b).transformation =
      (Gao2018DeepWordBug m' b).transformation ∧
    (Gao2018DeepWordBug m b).constraints =
      (Gao2018DeepWordBug m' b).constraints ∧
    (Gao2018DeepWordBug m b).max_depth =
      (Gao2018DeepWordBug m' b).max_depth := by
  refine ⟨rfl, ?_, rfl, rfl⟩
  cases b <;> rfl

/-- Claim C1 (refuting evidence): with the attack exactly as the recipe
constructs it — `constraints=[]`, so the `LevenshteinEditDistance(30)`
object is never consulted — a concrete run returns a `Success` result
whose final text lies at Levenshtein edit distance 31 from the original
text, strictly beyond the edit-distance budget of 30 that the recipe's
own comments say is enforced: the run commits 31 single-character
substitutions, one beyond the budget. -/
theorem gao_success_exceeds_budget :
    ((Gao2018DeepWordBug bugOracle true).attack 25 bugText).1 =
      AttackResult.success bugFinalText bugTrail ∧
    levDistance bugText.reconstruct bugFinalText.reconstruct = 31 ∧
    30 < levDistance bugText.reconstruct bugFinalText.reconstruct := by
  refine ⟨by set_option maxRecDepth 100000 in decide, ?_, ?_⟩
  · set_option maxRecDepth 100000 in decide
  · set_option maxRecDepth 100000 in decide
